import Mathlib

/-!
Verification of the nonlinear least-squares core (Levenberg-Marquardt solver
with a parallel forward-difference Jacobian engine) of the seq2map repository,
file sources/base/solve.cpp.

Embedding conventions:
* `double` scalars are modelled as `ℚ`; the floating-point primitives that are
  not rational (`std::sqrt` inside `rms`/`cv::norm`, `std::isfinite`, and the
  LU-based `cv::Mat::inv`) are abstracted into a `NumEnv` record of function
  parameters, so every theorem is stated for an arbitrary environment.
* `VectorisableD::Vec` (a `std::vector<double>`) is `List ℚ`; an `m × n`
  Jacobian `cv::Mat` is kept as its list of `n` columns (each a `List ℚ` of
  length `m`), because the code only ever writes whole column views.
* The worker threads of `ComputeJacobian` write disjoint column views and are
  joined before the function returns, so the computation is linearised: each
  thread's slice list is processed in order, and the threads are folded one
  after the other.  Any interleaving of the disjoint column writes yields the
  same matrix, which is what the theorems below prove.
-/

/-- A least-squares problem, embedding the state of `LeastSquaresProblem`
(solve.cpp): `m_vars`, `m_conds`, `m_varIdx`, `m_jacobianPattern`,
`m_diffStep`, `m_diffThreads`, and the virtual residual evaluator
`operator()(const Vec&)` as the function field `f`. -/
structure LSProblem where
  vars : ℕ
  conds : ℕ
  varIdx : List ℕ
  jacobianPattern : Option (List (List ℚ))
  diffStep : ℚ
  diffThreads : ℕ
  f : List ℚ → List ℚ

/-- One evaluation slice handed to a differentiation worker thread
(`JacobianSlice` in the header): the base point, the base residual, the
perturbed variable, the index of the column of `J` the slice writes, and the
sparsity-mask column (present exactly when `m_jacobianPattern` is nonempty). -/
structure JacobianSlice where
  x : List ℚ
  y : List ℚ
  var : ℕ
  col : ℕ
  mask : Option (List ℚ)
deriving DecidableEq

/-- `x.at<double>(var) += dx` (solve.cpp line 78): bump one coordinate of a
copy of the parameter vector.  For `var < x.length` this is `x + dx·e_var`. -/
def perturb (x : List ℚ) (var : ℕ) (dx : ℚ) : List ℚ :=
  x.set var (x.getD var 0 + dx)

/-- Column `var` of the row-major `m × n₀` Jacobian pattern
(`m_jacobianPattern.col(var)`, solve.cpp line 46). -/
def maskColumn (P : LSProblem) (var : ℕ) : List ℚ :=
  (P.jacobianPattern.getD []).map (fun row => row.getD var 0)

/-- The slice built for active variable `var` at running index `i`
(solve.cpp lines 39-48). -/
def mkSlice (P : LSProblem) (x y : List ℚ) (i : ℕ) (var : ℕ) : JacobianSlice :=
  { x := x, y := y, var := var, col := i,
    mask := if P.jacobianPattern.isSome then some (maskColumn P var) else none }

/-- The slice list built by the loop over `m_varIdx` with running index `i`
(solve.cpp lines 35-51), before round-robin distribution to the threads. -/
def mkSlices (P : LSProblem) (x y : List ℚ) (i : ℕ) : List ℕ → List JacobianSlice
  | [] => []
  | v :: vs => mkSlice P x y i v :: mkSlices P x y (i + 1) vs

/-- The body of `DiffThread` for one slice (solve.cpp lines 74-82): evaluate at
the perturbed copy of `x`, subtract the stored `y`, divide by the step.  Note
that `slice.mask` is NOT consulted: the source stores the mask column in the
slice but `DiffThread` never reads it. -/
def diffThreadStep (P : LSProblem) (s : JacobianSlice) : List ℚ :=
  ((P.f (perturb s.x s.var P.diffStep)).zipWith (fun a b => a - b) s.y).map
    (fun a => a / P.diffStep)

/-- `DiffThread` (solve.cpp lines 70-84): process the slices assigned to one
worker in order, writing each computed column into its column of `J`. -/
def diffThread (P : LSProblem) (J : List (List ℚ)) (slices : List JacobianSlice) :
    List (List ℚ) :=
  slices.foldl (fun J s => J.set s.col (diffThreadStep P s)) J

/-- The slices assigned to worker `t` by the round-robin
`threadIdx = i % m_diffThreads` (solve.cpp line 40); the running index `i`
always equals the slice's column index. -/
def threadSlices (slices : List JacobianSlice) (T t : ℕ) : List JacobianSlice :=
  slices.filter (fun s => decide (s.col % T = t))

/-- The value of the in/out parameter `y` after line 31 of solve.cpp:
`y = y.empty() ? (*this)(x) : y`. -/
def computeJacobianY (P : LSProblem) (x yIn : List ℚ) : List ℚ :=
  if yIn.isEmpty then P.f x else yIn

/-- `LeastSquaresProblem::ComputeJacobian` (solve.cpp lines 24-68) run with
`T = m_diffThreads` workers: `J` starts as the zero `m_conds × n` matrix (as
its list of `n` zero columns), the slices are distributed round-robin, and the
joined threads have each written their own columns. -/
def computeJacobian (P : LSProblem) (T : ℕ) (x yIn : List ℚ) : List (List ℚ) :=
  let y := computeJacobianY P x yIn
  let slices := mkSlices P x y 0 P.varIdx
  let J0 := List.replicate P.varIdx.length (List.replicate P.conds (0 : ℚ))
  (List.range T).foldl (fun J t => diffThread P J (threadSlices slices T t)) J0

/-- The forward-difference column for active variable `var`:
`(f(x + h·e_var) − y) / h` with `h = diffStep`, differenced against a given
base residual `y`. -/
def jacobianCol (P : LSProblem) (x y : List ℚ) (var : ℕ) : List ℚ :=
  ((P.f (perturb x var P.diffStep)).zipWith (fun a b => a - b) y).map
    (fun a => a / P.diffStep)

/-- The single-threaded reference Jacobian, following the words of the spec
(section 4.3): column `k` is the forward-difference column of the `k`-th
active variable. -/
def jacobianRef (P : LSProblem) (x y : List ℚ) : List (List ℚ) :=
  P.varIdx.map (jacobianCol P x y)

/-- `LeastSquaresProblem::SetActiveVars` (solve.cpp lines 86-96): reject when
some index reaches `m_vars`, otherwise install the new active list.  The
returned pair is (return value, problem state after the call). -/
def setActiveVars (P : LSProblem) (varIdx : List ℕ) : Bool × LSProblem :=
  if varIdx.any (fun v => decide (P.vars ≤ v)) then (false, P)
  else (true, { P with varIdx := varIdx })

/-- The foreach loop of `ApplyUpdate` (solve.cpp lines 104-107):
`x[var] += delta[i++]` over the active list. -/
def applyUpdateAux (delta : List ℚ) : List ℕ → ℕ → List ℚ → List ℚ
  | [], _, x => x
  | v :: vs, i, x => applyUpdateAux delta vs (i + 1) (x.set v (x.getD v 0 + delta.getD i 0))

/-- `LeastSquaresProblem::ApplyUpdate` (solve.cpp lines 98-110): copy `x0` and
add the update entries into the active coordinates. -/
def applyUpdate (P : LSProblem) (x0 delta : List ℚ) : List ℚ :=
  applyUpdateAux delta P.varIdx 0 x0

example : perturb [1, 2, 3] 1 (1/2) = [1, 5/2, 3] := by norm_num [perturb]
example :
    computeJacobian
      { vars := 1, conds := 1, varIdx := [0], jacobianPattern := none,
        diffStep := 1, diffThreads := 1, f := fun x => x } 1 [0] [0] = [[1]] := by
  norm_num [computeJacobian, computeJacobianY, mkSlices, mkSlice, threadSlices,
    diffThread, diffThreadStep, perturb, maskColumn, List.range_succ]

theorem diffThread_length (P : LSProblem) (J : List (List ℚ))
    (slices : List JacobianSlice) : (diffThread P J slices).length = J.length := by
  induction slices generalizing J with
  | nil => rfl
  | cons s L ih => simpa [diffThread] using (ih (J.set s.col (diffThreadStep P s))).trans (by simp)

theorem diffThread_append (P : LSProblem) (J : List (List ℚ))
    (L1 L2 : List JacobianSlice) :
    diffThread P J (L1 ++ L2) = diffThread P (diffThread P J L1) L2 := by
  simp [diffThread, List.foldl_append]

theorem diffThread_getElem?_of_ne (P : LSProblem) (J : List (List ℚ))
    (L : List JacobianSlice) (k : ℕ) (h : ∀ s ∈ L, s.col ≠ k) :
    (diffThread P J L)[k]? = J[k]? := by
  induction L generalizing J with
  | nil => rfl
  | cons s L ih =>
    have hs : s.col ≠ k := h s (by simp)
    have : (diffThread P (J.set s.col (diffThreadStep P s)) L)[k]?
        = (J.set s.col (diffThreadStep P s))[k]? :=
      ih (J.set s.col (diffThreadStep P s)) (fun s' hs' => h s' (by simp [hs']))
    simpa [diffThread, List.getElem?_set_ne hs] using this

theorem diffThread_getElem?_unique (P : LSProblem) (J : List (List ℚ))
    (L : List JacobianSlice) (k : ℕ) (sk : JacobianSlice) (hcol : sk.col = k)
    (hk : k < J.length) (hmem : sk ∈ L) (huniq : ∀ s ∈ L, s.col = k → s = sk) :
    (diffThread P J L)[k]? = some (diffThreadStep P sk) := by
  induction L generalizing J with
  | nil => simp at hmem
  | cons s L ih =>
    by_cases hmem' : sk ∈ L
    · exact ih (J.set s.col (diffThreadStep P s)) (by simpa using hk) hmem'
        (fun s' hs' => huniq s' (by simp [hs']))
    · have hs : s = sk := by
        rcases List.mem_cons.mp hmem with h | h
        · exact h.symm
        · exact absurd h hmem'
      subst hs
      have hnot : ∀ s' ∈ L, s'.col ≠ k := by
        intro s' hs' hc
        exact hmem' ((huniq s' (by simp [hs']) hc) ▸ hs')
      have := diffThread_getElem?_of_ne P (J.set s.col (diffThreadStep P s)) L k hnot
      rw [diffThread] at this ⊢
      simp only [List.foldl_cons]
      rw [← diffThread] at this ⊢
      rw [this, hcol, List.getElem?_set_self hk]

theorem mem_mkSlices (P : LSProblem) (x y : List ℚ) :
    ∀ (vs : List ℕ) (i : ℕ) (s : JacobianSlice), s ∈ mkSlices P x y i vs →
      ∃ j, j < vs.length ∧ s = mkSlice P x y (i + j) (vs.getD j 0) := by
  intro vs
  induction vs with
  | nil => intro i s h; simp [mkSlices] at h
  | cons v vs ih =>
    intro i s h
    rcases List.mem_cons.mp h with h | h
    · exact ⟨0, by simp, h⟩
    · obtain ⟨j, hj, hs⟩ := ih (i + 1) s h
      refine ⟨j + 1, by simpa using hj, ?_⟩
      have : i + 1 + j = i + (j + 1) := by omega
      simpa [this] using hs

theorem mkSlice_mem_mkSlices (P : LSProblem) (x y : List ℚ) :
    ∀ (vs : List ℕ) (i j : ℕ), j < vs.length →
      mkSlice P x y (i + j) (vs.getD j 0) ∈ mkSlices P x y i vs := by
  intro vs
  induction vs with
  | nil => intro i j h; simp at h
  | cons v vs ih =>
    intro i j hj
    match j with
    | 0 => exact List.mem_cons_self _ _
    | j + 1 =>
      have : i + (j + 1) = i + 1 + j := by omega
      rw [List.getD_cons_succ, this]
      exact List.mem_cons_of_mem _ (ih (i + 1) j (by simpa using hj))

theorem computeJacobian_eq (P : LSProblem) (T : ℕ) (hT : 1 ≤ T) (x yIn : List ℚ) :
    computeJacobian P T x yIn = jacobianRef P x (computeJacobianY P x yIn) := by
  apply List.ext_getElem?
  intro k
  set y := computeJacobianY P x yIn with hy
  set slices := mkSlices P x y 0 P.varIdx with hslices
  set n := P.varIdx.length with hn
  set J0 := List.replicate n (List.replicate P.conds (0 : ℚ)) with hJ0
  have hflat : computeJacobian P T x yIn
      = diffThread P J0 (((List.range T).map (threadSlices slices T)).flatten) := by
    rw [computeJacobian]
    rw [show diffThread P J0 (((List.range T).map (threadSlices slices T)).flatten)
        = (((List.range T).map (threadSlices slices T)).flatten).foldl
            (fun J s => J.set s.col (diffThreadStep P s)) J0 from rfl]
    rw [List.foldl_flatten, List.foldl_map]
    rfl
  have hJ0len : J0.length = n := by simp [hJ0]
  have hlen : (computeJacobian P T x yIn).length = n := by
    rw [hflat, diffThread_length, hJ0len]
  have hreflen : (jacobianRef P x y).length = n := by simp [jacobianRef, hn]
  rcases lt_or_le k n with hk | hk
  · -- the written column
    have hvar : P.varIdx[k]? = some (P.varIdx.getD k 0) := by
      rw [List.getD_eq_getElem?_getD]
      rw [List.getElem?_eq_getElem (by omega)]
      rfl
    set sk := mkSlice P x y k (P.varIdx.getD k 0) with hsk
    have hmem_slices : sk ∈ slices := by
      have h1 := mkSlice_mem_mkSlices P x y P.varIdx 0 k (by omega)
      rw [Nat.zero_add] at h1
      exact h1
    have huniq_slices : ∀ s ∈ slices, s.col = k → s = sk := by
      intro s hs hc
      obtain ⟨j, hj, hsj⟩ := mem_mkSlices P x y P.varIdx 0 s hs
      have hcol : s.col = j := by rw [hsj]; simp [mkSlice]
      have hjk : j = k := by omega
      subst hjk
      rw [Nat.zero_add] at hsj
      exact hsj
    have hmem : sk ∈ ((List.range T).map (threadSlices slices T)).flatten := by
      rw [List.mem_flatten]
      refine ⟨threadSlices slices T (k % T), List.mem_map_of_mem _ ?_, ?_⟩
      · exact List.mem_range.mpr (Nat.mod_lt k (by omega))
      · exact List.mem_filter.mpr ⟨hmem_slices, by simp [hsk, mkSlice]⟩
    have huniq : ∀ s ∈ ((List.range T).map (threadSlices slices T)).flatten,
        s.col = k → s = sk := by
      intro s hs hc
      rw [List.mem_flatten] at hs
      obtain ⟨l, hl, hsl⟩ := hs
      obtain ⟨t, _, rfl⟩ := List.mem_map.mp hl
      exact huniq_slices s (List.mem_filter.mp hsl).1 hc
    have hval : (computeJacobian P T x yIn)[k]? = some (diffThreadStep P sk) := by
      rw [hflat]
      exact diffThread_getElem?_unique P J0 _ k sk rfl (by omega) hmem huniq
    rw [hval]
    have : (jacobianRef P x y)[k]? = some (jacobianCol P x y (P.varIdx.getD k 0)) := by
      rw [jacobianRef, List.getElem?_map, hvar]
      rfl
    rw [this]
    rfl
  · rw [List.getElem?_eq_none (by omega), List.getElem?_eq_none (by omega)]

/-- The numeric primitives of the solver that are not rational-valued in the
source and are therefore kept abstract: `sqrt` models the `std::sqrt` inside
`rms` and `cv::norm`, `finite` models `isfinite`, and `matInv` models the
LU-based `cv::Mat::inv` used for the damped normal equations
(solve.cpp line 152).  Every theorem below holds for an arbitrary
environment. -/
structure NumEnv where
  sqrt : ℚ → ℚ
  finite : ℚ → Bool
  matInv : List (List ℚ) → List (List ℚ)

/-- Dot product of two vectors (truncating at the shorter one, as the OpenCV
expressions require equal sizes anyway). -/
def dot (a b : List ℚ) : ℚ := (a.zipWith (fun x y => x * y) b).sum

/-- `cv::norm` of a column vector: the L2 norm, with the square root kept
abstract in the environment. -/
def normQ (env : NumEnv) (v : List ℚ) : ℚ := env.sqrt (dot v v)

/-- Modelled from the spec: the helper `rms` called at solve.cpp lines 122 and
157 is not among the provided source files; the spec glossary defines
`rms(v) = sqrt(mean(v_i²))`, with the square root kept abstract in the
environment. -/
def rmsQ (env : NumEnv) (v : List ℚ) : ℚ := env.sqrt (dot v v / (v.length : ℚ))

/-- `H = J.t() * J` (solve.cpp line 139), with `J` given as its list of
columns: entry `(a, b)` of `H` is the dot product of columns `a` and `b`. -/
def matH (J : List (List ℚ)) : List (List ℚ) :=
  J.map (fun ca => J.map (fun cb => dot ca cb))

/-- `D = J.t() * y` (solve.cpp line 140): the error gradient. -/
def matD (J : List (List ℚ)) (y : List ℚ) : List ℚ := J.map (fun c => dot c y)

/-- `H.diag()` of a square matrix given as a list of rows, with running
index `i`. -/
def diagOf : List (List ℚ) → ℕ → List ℚ
  | [], _ => []
  | r :: rs, i => r.getD i 0 :: diagOf rs (i + 1)

/-- `cv::mean(H.diag())[0]` (solve.cpp line 142); division by zero yields 0 in
`ℚ`, matching OpenCV's zero result on an empty matrix. -/
def meanDiag (H : List (List ℚ)) : ℚ :=
  (diagOf H 0).sum / ((diagOf H 0).length : ℚ)

/-- `A = H + lambda * cv::Mat::diag(H.diag())` (solve.cpp line 151): add
`lambda` times the diagonal entry onto each diagonal position. -/
def augA : List (List ℚ) → ℚ → ℕ → List (List ℚ)
  | [], _, _ => []
  | r :: rs, lam, i => r.set i (r.getD i 0 + lam * r.getD i 0) :: augA rs lam (i + 1)

/-- Matrix-vector product, matrix given as rows. -/
def matVec (A : List (List ℚ)) (v : List ℚ) : List ℚ := A.map (fun r => dot r v)

/-- `x_delta = A.inv() * -D` (solve.cpp line 152), with the inverse taken from
the abstract environment. -/
def lmDelta (env : NumEnv) (H : List (List ℚ)) (D : List ℚ) (lam : ℚ) : List ℚ :=
  matVec (env.matInv (augA H lam 0)) (D.map (fun a => -a))

/-- The indices `d` with `H.diag()[d] == 0`, each of which gets a
"change of parameter d not responsive" warning (solve.cpp lines 192-199). -/
def zeroDiagIdx (H : List (List ℚ)) : List ℕ :=
  (List.range (diagOf H 0).length).filter (fun d => decide ((diagOf H 0).getD d 0 = 0))

/-- The solver state living across the loops of
`LevenbergMarquardtAlgorithm::Solve` (solve.cpp lines 116-124): the current
best parameters, residual and error, the damping `lambda`, the accepted error
drops `derr`, the accepted-update count and the `converged` flag. -/
structure LMState where
  x_best : List ℚ
  y_best : List ℚ
  e_best : ℚ
  lambda : ℚ
  derr : List ℚ
  updates : ℕ
  converged : Bool
deriving DecidableEq

/-- The accept/reject decision of one inner trial (solve.cpp lines 157-177):
compute `e_try` and `de = e_best - e_try`; on accept divide `lambda` by `eta`,
commit the trial point and push `de` onto `derr`; on reject multiply `lambda`
by `eta`.  Returns (new state, better, de). -/
def trialCore (env : NumEnv) (eta : ℚ) (s : LMState) (x_try y_try : List ℚ) :
    LMState × Bool × ℚ :=
  let e_try := rmsQ env y_try
  let de := s.e_best - e_try
  if 0 < de then
    ({ x_best := x_try, y_best := y_try, e_best := e_try, lambda := s.lambda / eta,
       derr := s.derr ++ [de], updates := s.updates + 1, converged := s.converged },
     true, de)
  else ({ s with lambda := s.lambda * eta }, false, de)

/-- Everything one iteration of the inner damping loop produces: the updated
state, the accept flag, the incremented trial count, the proposed step, the
zero-diagonal warnings and the ill-posedness flag. -/
structure TrialOut where
  s : LMState
  better : Bool
  trials : ℕ
  delta : List ℚ
  warnings : List ℕ
  ill : Bool
deriving DecidableEq

/-- `derr[last] / derr[last-1]` when at least two accepted drops exist, else
the initial `1.0` (solve.cpp line 180). -/
def lastDropQuot (derr : List ℚ) : ℚ :=
  if 1 < derr.length then derr.getD (derr.length - 1) 0 / derr.getD (derr.length - 2) 0
  else 1

/-- One full iteration of the inner damping loop body (solve.cpp lines
148-207): solve the augmented normal equations for the step, try the update,
accept or reject, recompute the convergence flag, and run the ill-posedness
check on `diag(H)` and `norm(x_delta)`. -/
def trial (env : NumEnv) (P : LSProblem) (eta eps : ℚ) (maxCount : ℕ)
    (H : List (List ℚ)) (D : List ℚ) (trials : ℕ) (s : LMState) : TrialOut :=
  let delta := lmDelta env H D s.lambda
  let x_try := applyUpdate P s.x_best delta
  let c := trialCore env eta s x_try (P.f x_try)
  let s1 := c.1
  let better := c.2.1
  let trials1 := trials + 1
  let conv := s1.converged || decide (maxCount ≤ s1.updates)
      || (decide (1 < s1.updates) && decide (lastDropQuot s1.derr < eps))
      || (decide (1 < s1.updates) && decide (normQ env delta / normQ env s1.x_best < eps))
      || (!better && (decide (s1.lambda = 0) || decide (maxCount ≤ trials1)))
  { s := { s1 with converged := conv }, better := better, trials := trials1,
    delta := delta, warnings := zeroDiagIdx H,
    ill := !(zeroDiagIdx H).isEmpty || !env.finite (normQ env delta) }

/-- Result of one run of the inner damping loop: normal exit with the final
state, the accept flag of the last trial and the counts of accepted and
rejected trials of this inner loop; an ill-posedness abort carrying the
emitted warnings (`return false` at solve.cpp line 206); or fuel
exhaustion (the model's bound on the loop, which the source does not need
because the trial-cap check bounds the loop). -/
inductive InnerRes where
  | out (s : LMState) (accepted : Bool) (accepts rejects : ℕ)
  | abort (warnings : List ℕ)
  | fuelOut
deriving DecidableEq

/-- The inner damping loop `while (!better && !converged)` (solve.cpp lines
148-208), entered with `better = false` and `converged = false`; the
ill-posedness `return false` fires at the end of a body iteration even when
that iteration accepted or set `converged`. -/
def innerLoop (env : NumEnv) (P : LSProblem) (eta eps : ℚ) (maxCount : ℕ)
    (H : List (List ℚ)) (D : List ℚ) :
    ℕ → ℕ → ℕ → ℕ → LMState → InnerRes
  | 0, _, _, _, _ => .fuelOut
  | fuel + 1, trials, accepts, rejects, s =>
    let t := trial env P eta eps maxCount H D trials s
    let accepts1 := if t.better then accepts + 1 else accepts
    let rejects1 := if t.better then rejects else rejects + 1
    if t.ill then .abort t.warnings
    else if t.better || t.s.converged then .out t.s t.better accepts1 rejects1
    else innerLoop env P eta eps maxCount H D fuel t.trials accepts1 rejects1 t.s

/-- Observable outcome of `Solve`: `success x u` means the solver returned
true after passing `x` to `SetSolution`, with `u` accepted updates;
`failure ws` means it returned false after emitting the warnings `ws` and
without invoking `SetSolution`. -/
inductive SolveRes where
  | success (x : List ℚ) (updates : ℕ)
  | failure (warnings : List ℕ)
  | fuelOut
deriving DecidableEq

/-- The outer loop `while (!converged)` (solve.cpp lines 135-219): build the
Jacobian at the current best point (also refreshing `y_best` through the
in/out reference when it was empty), form `H` and `D`, seed `lambda` from
`mean(diag(H))` when negative, and run the inner damping loop. -/
def outerLoop (env : NumEnv) (P : LSProblem) (eta eps : ℚ) (maxCount : ℕ) :
    ℕ → LMState → SolveRes
  | 0, _ => .fuelOut
  | fuel + 1, s =>
    if s.converged then .success s.x_best s.updates
    else
      let y := computeJacobianY P s.x_best s.y_best
      let J := computeJacobian P P.diffThreads s.x_best s.y_best
      let H := matH J
      let D := matD J y
      let lam := if s.lambda < 0 then meanDiag H else s.lambda
      match innerLoop env P eta eps maxCount H D (maxCount + 1) 0 0 0
          { s with y_best := y, lambda := lam } with
      | .out s1 _ _ _ => outerLoop env P eta eps maxCount fuel s1
      | .abort ws => .failure ws
      | .fuelOut => .fuelOut

/-- `LevenbergMarquardtAlgorithm::Solve` (solve.cpp lines 112-237):
initialise the state from `x0` and run the outer loop. -/
def solve (env : NumEnv) (P : LSProblem) (eta eps : ℚ) (maxCount : ℕ)
    (lambda0 : ℚ) (fuel : ℕ) (x0 : List ℚ) : SolveRes :=
  let y0 := P.f x0
  outerLoop env P eta eps maxCount fuel
    { x_best := x0, y_best := y0, e_best := rmsQ env y0, lambda := lambda0,
      derr := [], updates := 0, converged := false }

theorem trialCore_better_iff (env : NumEnv) (eta : ℚ) (s : LMState) (x_try y_try : List ℚ) :
    (trialCore env eta s x_try y_try).2.1 = true ↔ 0 < s.e_best - rmsQ env y_try := by
  by_cases h : 0 < s.e_best - rmsQ env y_try <;> simp [trialCore, h]

theorem trialCore_fst_accept (env : NumEnv) (eta : ℚ) (s : LMState) (x_try y_try : List ℚ)
    (h : 0 < s.e_best - rmsQ env y_try) :
    (trialCore env eta s x_try y_try).1 =
      { x_best := x_try, y_best := y_try, e_best := rmsQ env y_try,
        lambda := s.lambda / eta, derr := s.derr ++ [s.e_best - rmsQ env y_try],
        updates := s.updates + 1, converged := s.converged } := by
  simp [trialCore, h]

theorem trialCore_fst_reject (env : NumEnv) (eta : ℚ) (s : LMState) (x_try y_try : List ℚ)
    (h : ¬ 0 < s.e_best - rmsQ env y_try) :
    (trialCore env eta s x_try y_try).1 = { s with lambda := s.lambda * eta } := by
  simp [trialCore, h]

theorem trialCore_converged (env : NumEnv) (eta : ℚ) (s : LMState) (x_try y_try : List ℚ) :
    (trialCore env eta s x_try y_try).1.converged = s.converged := by
  by_cases h : 0 < s.e_best - rmsQ env y_try <;> simp [trialCore, h]

theorem trialCore_derr_len (env : NumEnv) (eta : ℚ) (s : LMState) (x_try y_try : List ℚ)
    (hder : s.derr.length = s.updates) :
    (trialCore env eta s x_try y_try).1.derr.length = (trialCore env eta s x_try y_try).1.updates := by
  by_cases h : 0 < s.e_best - rmsQ env y_try <;> simp [trialCore, h, hder]

theorem trial_delta_def (env : NumEnv) (P : LSProblem) (eta eps : ℚ) (maxCount : ℕ)
    (H : List (List ℚ)) (D : List ℚ) (trials : ℕ) (s : LMState) :
    (trial env P eta eps maxCount H D trials s).delta = lmDelta env H D s.lambda := rfl

theorem trial_warnings_def (env : NumEnv) (P : LSProblem) (eta eps : ℚ) (maxCount : ℕ)
    (H : List (List ℚ)) (D : List ℚ) (trials : ℕ) (s : LMState) :
    (trial env P eta eps maxCount H D trials s).warnings = zeroDiagIdx H := rfl

theorem trial_trials_def (env : NumEnv) (P : LSProblem) (eta eps : ℚ) (maxCount : ℕ)
    (H : List (List ℚ)) (D : List ℚ) (trials : ℕ) (s : LMState) :
    (trial env P eta eps maxCount H D trials s).trials = trials + 1 := rfl

theorem trial_ill_def (env : NumEnv) (P : LSProblem) (eta eps : ℚ) (maxCount : ℕ)
    (H : List (List ℚ)) (D : List ℚ) (trials : ℕ) (s : LMState) :
    (trial env P eta eps maxCount H D trials s).ill
      = (!(zeroDiagIdx H).isEmpty || !env.finite (normQ env (lmDelta env H D s.lambda))) := rfl

theorem trial_better_def (env : NumEnv) (P : LSProblem) (eta eps : ℚ) (maxCount : ℕ)
    (H : List (List ℚ)) (D : List ℚ) (trials : ℕ) (s : LMState) :
    (trial env P eta eps maxCount H D trials s).better
      = (trialCore env eta s (applyUpdate P s.x_best (lmDelta env H D s.lambda))
          (P.f (applyUpdate P s.x_best (lmDelta env H D s.lambda)))).2.1 := rfl

theorem trial_s_fields (env : NumEnv) (P : LSProblem) (eta eps : ℚ) (maxCount : ℕ)
    (H : List (List ℚ)) (D : List ℚ) (trials : ℕ) (s : LMState) :
    (trial env P eta eps maxCount H D trials s).s.x_best
        = (trialCore env eta s (applyUpdate P s.x_best (lmDelta env H D s.lambda))
            (P.f (applyUpdate P s.x_best (lmDelta env H D s.lambda)))).1.x_best
      ∧ (trial env P eta eps maxCount H D trials s).s.y_best
        = (trialCore env eta s (applyUpdate P s.x_best (lmDelta env H D s.lambda))
            (P.f (applyUpdate P s.x_best (lmDelta env H D s.lambda)))).1.y_best
      ∧ (trial env P eta eps maxCount H D trials s).s.e_best
        = (trialCore env eta s (applyUpdate P s.x_best (lmDelta env H D s.lambda))
            (P.f (applyUpdate P s.x_best (lmDelta env H D s.lambda)))).1.e_best
      ∧ (trial env P eta eps maxCount H D trials s).s.lambda
        = (trialCore env eta s (applyUpdate P s.x_best (lmDelta env H D s.lambda))
            (P.f (applyUpdate P s.x_best (lmDelta env H D s.lambda)))).1.lambda
      ∧ (trial env P eta eps maxCount H D trials s).s.derr
        = (trialCore env eta s (applyUpdate P s.x_best (lmDelta env H D s.lambda))
            (P.f (applyUpdate P s.x_best (lmDelta env H D s.lambda)))).1.derr
      ∧ (trial env P eta eps maxCount H D trials s).s.updates
        = (trialCore env eta s (applyUpdate P s.x_best (lmDelta env H D s.lambda))
            (P.f (applyUpdate P s.x_best (lmDelta env H D s.lambda)))).1.updates :=
  ⟨rfl, rfl, rfl, rfl, rfl, rfl⟩

theorem trial_s_converged_def (env : NumEnv) (P : LSProblem) (eta eps : ℚ) (maxCount : ℕ)
    (H : List (List ℚ)) (D : List ℚ) (trials : ℕ) (s : LMState) :
    (trial env P eta eps maxCount H D trials s).s.converged
      = ((trialCore env eta s (applyUpdate P s.x_best (lmDelta env H D s.lambda))
            (P.f (applyUpdate P s.x_best (lmDelta env H D s.lambda)))).1.converged
        || decide (maxCount ≤ (trialCore env eta s (applyUpdate P s.x_best (lmDelta env H D s.lambda))
            (P.f (applyUpdate P s.x_best (lmDelta env H D s.lambda)))).1.updates)
        || (decide (1 < (trialCore env eta s (applyUpdate P s.x_best (lmDelta env H D s.lambda))
            (P.f (applyUpdate P s.x_best (lmDelta env H D s.lambda)))).1.updates)
          && decide (lastDropQuot (trialCore env eta s (applyUpdate P s.x_best (lmDelta env H D s.lambda))
            (P.f (applyUpdate P s.x_best (lmDelta env H D s.lambda)))).1.derr < eps))
        || (decide (1 < (trialCore env eta s (applyUpdate P s.x_best (lmDelta env H D s.lambda))
            (P.f (applyUpdate P s.x_best (lmDelta env H D s.lambda)))).1.updates)
          && decide (normQ env (lmDelta env H D s.lambda)
            / normQ env (trialCore env eta s (applyUpdate P s.x_best (lmDelta env H D s.lambda))
                (P.f (applyUpdate P s.x_best (lmDelta env H D s.lambda)))).1.x_best < eps))
        || (!(trialCore env eta s (applyUpdate P s.x_best (lmDelta env H D s.lambda))
            (P.f (applyUpdate P s.x_best (lmDelta env H D s.lambda)))).2.1
          && (decide ((trialCore env eta s (applyUpdate P s.x_best (lmDelta env H D s.lambda))
              (P.f (applyUpdate P s.x_best (lmDelta env H D s.lambda)))).1.lambda = 0)
            || decide (maxCount ≤ trials + 1)))) := rfl

theorem applyUpdateAux_length (delta : List ℚ) :
    ∀ (vs : List ℕ) (i : ℕ) (x : List ℚ), (applyUpdateAux delta vs i x).length = x.length := by
  intro vs
  induction vs with
  | nil => intro i x; rfl
  | cons v vs ih =>
    intro i x
    rw [applyUpdateAux, ih]
    simp

theorem applyUpdateAux_getElem?_not_mem (delta : List ℚ) :
    ∀ (vs : List ℕ) (i : ℕ) (x : List ℚ) (w : ℕ), w ∉ vs →
      (applyUpdateAux delta vs i x)[w]? = x[w]? := by
  intro vs
  induction vs with
  | nil => intro i x w _; rfl
  | cons v vs ih =>
    intro i x w hw
    have hv : v ≠ w := fun h => hw (h ▸ List.mem_cons_self v vs)
    have hw' : w ∉ vs := fun h => hw (List.mem_cons_of_mem v h)
    rw [applyUpdateAux, ih _ _ _ hw', List.getElem?_set_ne hv]

theorem applyUpdateAux_getElem?_active (delta : List ℚ) :
    ∀ (vs : List ℕ) (i : ℕ) (x : List ℚ) (j v : ℕ), vs.Nodup →
      (∀ u ∈ vs, u < x.length) → vs[j]? = some v →
      (applyUpdateAux delta vs i x)[v]? = some (x.getD v 0 + delta.getD (i + j) 0) := by
  intro vs
  induction vs with
  | nil => intro i x j v _ _ hj; simp at hj
  | cons u vs ih =>
    intro i x j v hnd hlt hj
    match j with
    | 0 =>
      have hv : v = u := by simpa using hj.symm
      subst hv
      rw [applyUpdateAux]
      have hnotmem : v ∉ vs := (List.nodup_cons.mp hnd).1
      rw [applyUpdateAux_getElem?_not_mem delta vs _ _ _ hnotmem]
      have hvlen : v < x.length := hlt v (List.mem_cons_self _ _)
      rw [List.getElem?_set_self (by simpa using hvlen)]
      simp
    | j + 1 =>
      rw [applyUpdateAux]
      have hj' : vs[j]? = some v := by simpa using hj
      have hub : u ∉ vs := (List.nodup_cons.mp hnd).1
      have hvm : v ∈ vs := List.getElem?_mem hj'
      have huv : u ≠ v := fun h => hub (h ▸ hvm)
      have harith : i + 1 + j = i + (j + 1) := by omega
      have ihres := ih (i + 1) (x.set u (x.getD u 0 + delta.getD i 0)) j v
        (List.nodup_cons.mp hnd).2
        (fun w hw => by simpa using hlt w (List.mem_cons_of_mem u hw)) hj'
      rw [ihres, harith]
      have hgd : (x.set u (x.getD u 0 + delta.getD i 0)).getD v 0 = x.getD v 0 := by
        rw [List.getD_eq_getElem?_getD, List.getElem?_set_ne huv, ← List.getD_eq_getElem?_getD]
      rw [hgd]

/-- C4: for a base vector `x0` and an update `Delta` of the active-set length,
`applyUpdate` keeps every inactive coordinate of `x0` (and the length), and
writes `x0[v] + Delta[j]` at coordinate `v = active[j]` for every position `j`
of the (duplicate-free, in-range) active set. -/
theorem C4_applyUpdate (P : LSProblem) (x0 delta : List ℚ) (hnd : P.varIdx.Nodup)
    (hlt : ∀ v ∈ P.varIdx, v < x0.length) (hlen : delta.length = P.varIdx.length) :
    (applyUpdate P x0 delta).length = x0.length ∧
    (∀ i, i ∉ P.varIdx → (applyUpdate P x0 delta)[i]? = x0[i]?) ∧
    (∀ j v, P.varIdx[j]? = some v →
      (applyUpdate P x0 delta)[v]? = some (x0.getD v 0 + delta.getD j 0)) := by
  refine ⟨applyUpdateAux_length delta P.varIdx 0 x0,
    fun i hi => applyUpdateAux_getElem?_not_mem delta P.varIdx 0 x0 i hi,
    fun j v hj => ?_⟩
  have h := applyUpdateAux_getElem?_active delta P.varIdx 0 x0 j v hnd hlt hj
  rwa [Nat.zero_add] at h

/-- Concrete problem for the C4 witness: three parameters, active set {2, 0}. -/
def exP4 : LSProblem :=
  { vars := 3, conds := 0, varIdx := [2, 0], jacobianPattern := none,
    diffStep := 1, diffThreads := 1, f := fun _ => [] }

theorem C4_applyUpdate_witness :
    (applyUpdate exP4 [10, 20, 30] [1, 2])[2]? = some 31 ∧
    (applyUpdate exP4 [10, 20, 30] [1, 2])[1]? = some 20 := by
  have h := C4_applyUpdate exP4 [10, 20, 30] [1, 2] (by decide)
    (by intro v hv; fin_cases hv <;> norm_num) (by decide)
  constructor
  · have h2 := h.2.2 0 2 rfl
    rw [h2]
    show some ((30 : ℚ) + 1) = some 31
    norm_num
  · have h1 := h.2.1 1 (by decide)
    rw [h1]
    rfl

/-- Concrete problem for the C1 evaluation: one parameter, one residual,
identity evaluate, and a Jacobian pattern that is zero at `(0, v_0)`. -/
def maskP : LSProblem :=
  { vars := 1, conds := 1, varIdx := [0], jacobianPattern := some [[0]],
    diffStep := 1, diffThreads := 1, f := fun x => x }

/-- C1: the jacobianPattern mask is built into the slices but `DiffThread`
never reads it, so a mask zero at `(0, v_0)` does NOT force `J[0, 0] = 0`:
with the identity residual the full forward-difference column is written and
`J[0, 0] = 1`.  This contradicts the claim (and the spec's masking contract);
the dead `slice.mask` field shows the masking was the intent. -/
theorem C1_mask_ignored :
    maskP.jacobianPattern = some [[0]] ∧ maskColumn maskP 0 = [0] ∧
    computeJacobian maskP 1 [0] (maskP.f [0]) = [[1]] ∧ (1 : ℚ) ≠ 0 := by
  refine ⟨rfl, rfl, ?_, by norm_num⟩
  norm_num [maskP, computeJacobian, computeJacobianY, mkSlices, mkSlice, threadSlices,
    diffThread, diffThreadStep, perturb, maskColumn, List.range_succ]

/-- C2: for any worker count `T ≥ 1` the Jacobian is identical to the
single-threaded run, and column `k` (for the `k`-th active variable `v`) is
exactly `(f(x + h·e_v) − f(x)) / h` with `h = diffStep`, when differenced
against `y = f(x)` as the solver supplies it. -/
theorem C2_forward_difference (P : LSProblem) (T : ℕ) (hT : 1 ≤ T) (x : List ℚ)
    (k v : ℕ) (hk : P.varIdx[k]? = some v) :
    computeJacobian P T x (P.f x) = computeJacobian P 1 x (P.f x) ∧
    (computeJacobian P T x (P.f x))[k]? =
      some (((P.f (perturb x v P.diffStep)).zipWith (fun a b => a - b) (P.f x)).map
        (fun a => a / P.diffStep)) := by
  have hy : computeJacobianY P x (P.f x) = P.f x := by
    simp [computeJacobianY]
  have h1 := computeJacobian_eq P T hT x (P.f x)
  have h2 := computeJacobian_eq P 1 (le_refl 1) x (P.f x)
  constructor
  · rw [h1, h2]
  · rw [h1, hy, jacobianRef, List.getElem?_map, hk]
    rfl

/-- Concrete problem for the C2 witness: two parameters, one residual
`x₀ · x₁`, two differentiation threads. -/
def exP2 : LSProblem :=
  { vars := 2, conds := 1, varIdx := [0, 1], jacobianPattern := none,
    diffStep := 1, diffThreads := 2, f := fun x => [x.getD 0 0 * x.getD 1 0] }

theorem C2_forward_difference_witness :
    computeJacobian exP2 2 [2, 3] (exP2.f [2, 3]) = computeJacobian exP2 1 [2, 3] (exP2.f [2, 3]) ∧
    (computeJacobian exP2 2 [2, 3] (exP2.f [2, 3]))[1]? =
      some (((exP2.f (perturb [2, 3] 1 exP2.diffStep)).zipWith (fun a b => a - b)
        (exP2.f [2, 3])).map (fun a => a / exP2.diffStep)) :=
  C2_forward_difference exP2 2 (by decide) [2, 3] 1 1 rfl

/-- C10: `ComputeJacobian`'s `y` is in/out: when the caller's `y` is empty it
becomes `f(x)`, otherwise it is kept unchanged, and in both cases the
returned Jacobian is differenced exactly against that resulting `y`.  The
problem state itself (active set, mask, step) is untouched: the method is
const and the embedding is a pure function of `P`. -/
theorem C10_y_inout (P : LSProblem) (T : ℕ) (x yIn : List ℚ) (hT : 1 ≤ T) :
    computeJacobianY P x yIn = (if yIn.isEmpty then P.f x else yIn) ∧
    (yIn.isEmpty = false → computeJacobianY P x yIn = yIn) ∧
    computeJacobian P T x yIn = jacobianRef P x (computeJacobianY P x yIn) := by
  refine ⟨rfl, fun h => ?_, computeJacobian_eq P T hT x yIn⟩
  simp [computeJacobianY, h]

/-- Concrete problem for the C10 witness. -/
def exP10 : LSProblem :=
  { vars := 1, conds := 1, varIdx := [0], jacobianPattern := none,
    diffStep := 1, diffThreads := 2, f := fun x => [x.getD 0 0 + 1] }

theorem C10_y_inout_witness :
    computeJacobianY exP10 [1] [5] = [5] ∧
    computeJacobian exP10 2 [1] [5] = jacobianRef exP10 [1] (computeJacobianY exP10 [1] [5]) :=
  ⟨(C10_y_inout exP10 2 [1] [5] (by decide)).2.1 rfl,
   (C10_y_inout exP10 2 [1] [5] (by decide)).2.2⟩

/-- C9: `SetActiveVars` returns false exactly when some requested index
reaches the declared dimension `n₀ = vars`; on success the active set is
replaced by the given list, and on failure the problem is unchanged. -/
theorem C9_setActive (P : LSProblem) (l : List ℕ) :
    ((setActiveVars P l).1 = false ↔ ∃ v ∈ l, P.vars ≤ v) ∧
    ((setActiveVars P l).1 = true → (setActiveVars P l).2.varIdx = l) ∧
    ((setActiveVars P l).1 = false → (setActiveVars P l).2 = P) := by
  by_cases h : l.any (fun v => decide (P.vars ≤ v))
  · refine ⟨?_, ?_, ?_⟩ <;> simp [setActiveVars, h]
    · simpa using h
  · refine ⟨?_, ?_, ?_⟩ <;> simp [setActiveVars, h]
    · simpa using h

/-- Concrete problem for the C9 witness. -/
def exP9 : LSProblem :=
  { vars := 2, conds := 1, varIdx := [], jacobianPattern := none,
    diffStep := 1, diffThreads := 1, f := fun _ => [0] }

theorem C9_setActive_witness :
    (setActiveVars exP9 [1, 0]).2.varIdx = [1, 0] ∧
    ((setActiveVars exP9 [5]).1 = false ↔ ∃ v ∈ [5], exP9.vars ≤ v) :=
  ⟨(C9_setActive exP9 [1, 0]).2.1 (by decide), (C9_setActive exP9 [5]).1⟩

theorem trial_reject_s (env : NumEnv) (P : LSProblem) (eta eps : ℚ) (maxCount : ℕ)
    (H : List (List ℚ)) (D : List ℚ) (trials : ℕ) (s : LMState)
    (hb : (trial env P eta eps maxCount H D trials s).better = false) :
    (trial env P eta eps maxCount H D trials s).s.x_best = s.x_best ∧
    (trial env P eta eps maxCount H D trials s).s.y_best = s.y_best ∧
    (trial env P eta eps maxCount H D trials s).s.e_best = s.e_best ∧
    (trial env P eta eps maxCount H D trials s).s.derr = s.derr ∧
    (trial env P eta eps maxCount H D trials s).s.updates = s.updates ∧
    (trial env P eta eps maxCount H D trials s).s.lambda = s.lambda * eta := by
  obtain ⟨hx, hy, he, hl, hd, hu⟩ := trial_s_fields env P eta eps maxCount H D trials s
  rw [trial_better_def] at hb
  have hde : ¬ 0 < s.e_best -
      rmsQ env (P.f (applyUpdate P s.x_best (lmDelta env H D s.lambda))) := by
    intro h
    exact absurd ((trialCore_better_iff env eta s _ _).mpr h) (by rw [hb]; simp)
  have hrej := trialCore_fst_reject env eta s
    (applyUpdate P s.x_best (lmDelta env H D s.lambda))
    (P.f (applyUpdate P s.x_best (lmDelta env H D s.lambda))) hde
  rw [hx, hy, he, hd, hu, hl, hrej]
  exact ⟨rfl, rfl, rfl, rfl, rfl, rfl⟩

theorem trial_accept_s (env : NumEnv) (P : LSProblem) (eta eps : ℚ) (maxCount : ℕ)
    (H : List (List ℚ)) (D : List ℚ) (trials : ℕ) (s : LMState)
    (hb : (trial env P eta eps maxCount H D trials s).better = true) :
    (trial env P eta eps maxCount H D trials s).s.x_best
      = applyUpdate P s.x_best (lmDelta env H D s.lambda) ∧
    (trial env P eta eps maxCount H D trials s).s.y_best
      = P.f (applyUpdate P s.x_best (lmDelta env H D s.lambda)) ∧
    (trial env P eta eps maxCount H D trials s).s.e_best
      = rmsQ env (P.f (applyUpdate P s.x_best (lmDelta env H D s.lambda))) ∧
    (trial env P eta eps maxCount H D trials s).s.derr
      = s.derr ++ [s.e_best - rmsQ env (P.f (applyUpdate P s.x_best (lmDelta env H D s.lambda)))] ∧
    (trial env P eta eps maxCount H D trials s).s.updates = s.updates + 1 ∧
    (trial env P eta eps maxCount H D trials s).s.lambda = s.lambda / eta ∧
    0 < s.e_best - rmsQ env (P.f (applyUpdate P s.x_best (lmDelta env H D s.lambda))) := by
  obtain ⟨hx, hy, he, hl, hd, hu⟩ := trial_s_fields env P eta eps maxCount H D trials s
  rw [trial_better_def] at hb
  have hde := (trialCore_better_iff env eta s
    (applyUpdate P s.x_best (lmDelta env H D s.lambda))
    (P.f (applyUpdate P s.x_best (lmDelta env H D s.lambda)))).mp hb
  have hacc := trialCore_fst_accept env eta s
    (applyUpdate P s.x_best (lmDelta env H D s.lambda))
    (P.f (applyUpdate P s.x_best (lmDelta env H D s.lambda))) hde
  rw [hx, hy, he, hd, hu, hl, hacc]
  exact ⟨rfl, rfl, rfl, rfl, rfl, rfl, hde⟩

/-- C8: an accepted inner trial strictly decreases `rms(y_best)` (and keeps
`e_best = rms(y_best)`); a rejected trial leaves `x_best`, `y_best` and
`e_best` unchanged. -/
theorem C8_strict_improvement (env : NumEnv) (P : LSProblem) (eta eps : ℚ) (maxCount : ℕ)
    (H : List (List ℚ)) (D : List ℚ) (trials : ℕ) (s : LMState)
    (hinv : s.e_best = rmsQ env s.y_best) :
    ((trial env P eta eps maxCount H D trials s).better = true →
      rmsQ env (trial env P eta eps maxCount H D trials s).s.y_best < rmsQ env s.y_best ∧
      (trial env P eta eps maxCount H D trials s).s.e_best
        = rmsQ env (trial env P eta eps maxCount H D trials s).s.y_best) ∧
    ((trial env P eta eps maxCount H D trials s).better = false →
      (trial env P eta eps maxCount H D trials s).s.x_best = s.x_best ∧
      (trial env P eta eps maxCount H D trials s).s.y_best = s.y_best ∧
      (trial env P eta eps maxCount H D trials s).s.e_best = s.e_best) := by
  constructor
  · intro hb
    obtain ⟨hx, hy, he, hd, hu, hl, hde⟩ := trial_accept_s env P eta eps maxCount H D trials s hb
    refine ⟨?_, by rw [he, hy]⟩
    rw [hy, ← hinv]
    linarith
  · intro hb
    obtain ⟨hx, hy, he, _, _, _⟩ := trial_reject_s env P eta eps maxCount H D trials s hb
    exact ⟨hx, hy, he⟩

/-- The abstract numeric environment used by the concrete witnesses: the
identity square root, everything finite, and the entrywise-reciprocal
inverse (exact for the 1-by-1 matrices of the witnesses). -/
def exEnv : NumEnv :=
  { sqrt := fun a => a, finite := fun _ => true,
    matInv := fun A => A.map (fun r => r.map (fun a => 1 / a)) }

/-- Concrete one-parameter identity-residual problem used by the solver-state
witnesses. -/
def exP5 : LSProblem :=
  { vars := 1, conds := 1, varIdx := [0], jacobianPattern := none,
    diffStep := 1, diffThreads := 1, f := fun x => x }

/-- A concrete solver state at `x = [4]` for the witnesses. -/
def exS5 : LMState :=
  { x_best := [4], y_best := [4], e_best := 16, lambda := 1, derr := [],
    updates := 0, converged := false }

theorem C8_strict_improvement_witness :
    rmsQ exEnv (trial exEnv exP5 2 (1/1000) 5 [[1]] [4] 3 exS5).s.y_best
      < rmsQ exEnv exS5.y_best ∧
    (trial exEnv exP5 2 (1/1000) 5 [[1]] [4] 3 exS5).s.e_best
      = rmsQ exEnv (trial exEnv exP5 2 (1/1000) 5 [[1]] [4] 3 exS5).s.y_best := by
  have hinv : exS5.e_best = rmsQ exEnv exS5.y_best := by
    norm_num [exS5, rmsQ, exEnv, dot]
  have hb : (trial exEnv exP5 2 (1/1000) 5 [[1]] [4] 3 exS5).better = true := by
    norm_num [trial, trialCore, lmDelta, matVec, augA, dot, applyUpdate, applyUpdateAux,
      rmsQ, normQ, exEnv, exP5, exS5]
  exact (C8_strict_improvement exEnv exP5 2 (1/1000) 5 [[1]] [4] 3 exS5 hinv).1 hb

/-- C6: after a trial entered with `converged = false` (the inner-loop guard)
and the reachable-state invariant `derr.length = updates`, the solver's
`converged` flag is set exactly when one of the four conditions of solve.cpp
lines 183-186 holds: the update cap, the diminishing ratio of the last two
accepted error drops, the small relative step, or a rejected trial with
`lambda == 0` or the trial count at the cap. -/
theorem C6_converged (env : NumEnv) (P : LSProblem) (eta eps : ℚ) (maxCount : ℕ)
    (H : List (List ℚ)) (D : List ℚ) (trials : ℕ) (s : LMState)
    (hconv : s.converged = false) (hder : s.derr.length = s.updates) :
    ((trial env P eta eps maxCount H D trials s).s.converged = true ↔
      (maxCount ≤ (trial env P eta eps maxCount H D trials s).s.updates
       ∨ (1 < (trial env P eta eps maxCount H D trials s).s.updates ∧
           (trial env P eta eps maxCount H D trials s).s.derr.getD
             ((trial env P eta eps maxCount H D trials s).s.derr.length - 1) 0 /
           (trial env P eta eps maxCount H D trials s).s.derr.getD
             ((trial env P eta eps maxCount H D trials s).s.derr.length - 2) 0 < eps)
       ∨ (1 < (trial env P eta eps maxCount H D trials s).s.updates ∧
           normQ env (trial env P eta eps maxCount H D trials s).delta /
             normQ env (trial env P eta eps maxCount H D trials s).s.x_best < eps)
       ∨ ((trial env P eta eps maxCount H D trials s).better = false ∧
           ((trial env P eta eps maxCount H D trials s).s.lambda = 0 ∨
             maxCount ≤ (trial env P eta eps maxCount H D trials s).trials)))) := by
  obtain ⟨hx, hy, he, hl, hd, hu⟩ := trial_s_fields env P eta eps maxCount H D trials s
  rw [trial_s_converged_def, trial_better_def, trial_trials_def, trial_delta_def,
    hx, hd, hu, hl, trialCore_converged, hconv]
  have hlen2 := trialCore_derr_len env eta s
    (applyUpdate P s.x_best (lmDelta env H D s.lambda))
    (P.f (applyUpdate P s.x_best (lmDelta env H D s.lambda))) hder
  by_cases hu1 :
      1 < (trialCore env eta s (applyUpdate P s.x_best (lmDelta env H D s.lambda))
        (P.f (applyUpdate P s.x_best (lmDelta env H D s.lambda)))).1.updates
  · rw [lastDropQuot, if_pos (by rw [hlen2]; exact hu1)]
    simp [hu1]
    tauto
  · rw [lastDropQuot, if_neg (by rw [hlen2]; exact hu1)]
    simp [hu1]

theorem C6_converged_witness :
    ((trial exEnv exP5 2 (1/1000) 5 [[1]] [4] 3 exS5).s.converged = true ↔
      (5 ≤ (trial exEnv exP5 2 (1/1000) 5 [[1]] [4] 3 exS5).s.updates
       ∨ (1 < (trial exEnv exP5 2 (1/1000) 5 [[1]] [4] 3 exS5).s.updates ∧
           (trial exEnv exP5 2 (1/1000) 5 [[1]] [4] 3 exS5).s.derr.getD
             ((trial exEnv exP5 2 (1/1000) 5 [[1]] [4] 3 exS5).s.derr.length - 1) 0 /
           (trial exEnv exP5 2 (1/1000) 5 [[1]] [4] 3 exS5).s.derr.getD
             ((trial exEnv exP5 2 (1/1000) 5 [[1]] [4] 3 exS5).s.derr.length - 2) 0 < 1/1000)
       ∨ (1 < (trial exEnv exP5 2 (1/1000) 5 [[1]] [4] 3 exS5).s.updates ∧
           normQ exEnv (trial exEnv exP5 2 (1/1000) 5 [[1]] [4] 3 exS5).delta /
             normQ exEnv (trial exEnv exP5 2 (1/1000) 5 [[1]] [4] 3 exS5).s.x_best < 1/1000)
       ∨ ((trial exEnv exP5 2 (1/1000) 5 [[1]] [4] 3 exS5).better = false ∧
           ((trial exEnv exP5 2 (1/1000) 5 [[1]] [4] 3 exS5).s.lambda = 0 ∨
             5 ≤ (trial exEnv exP5 2 (1/1000) 5 [[1]] [4] 3 exS5).trials)))) :=
  C6_converged exEnv exP5 2 (1/1000) 5 [[1]] [4] 3 exS5 rfl rfl

/-- C5: within one inner damping loop, each accepted trial divides `lambda`
by `eta` and each rejected trial multiplies it by `eta`; when the loop exits
by acceptance, `lambda` equals its value at loop entry times
`eta^rejects / eta^accepts` (with exactly one accept). -/
theorem C5_lambda (env : NumEnv) (P : LSProblem) (eta eps : ℚ) (maxCount : ℕ)
    (H : List (List ℚ)) (D : List ℚ) (heta : 1 < eta) :
    ∀ (fuel trials a r : ℕ) (s s' : LMState) (acc rej : ℕ),
      innerLoop env P eta eps maxCount H D fuel trials a r s = .out s' true acc rej →
      acc = a + 1 ∧ r ≤ rej ∧
      s'.lambda = s.lambda * eta ^ (rej - r) / eta ^ (acc - a) := by
  intro fuel
  induction fuel with
  | zero =>
    intro trials a r s s' acc rej h
    simp [innerLoop] at h
  | succ fuel ih =>
    intro trials a r s s' acc rej h
    simp only [innerLoop] at h
    by_cases hill : (trial env P eta eps maxCount H D trials s).ill = true
    · rw [if_pos hill] at h
      simp at h
    · rw [if_neg hill] at h
      by_cases hexit : ((trial env P eta eps maxCount H D trials s).better
          || (trial env P eta eps maxCount H D trials s).s.converged) = true
      · rw [if_pos hexit] at h
        simp only [InnerRes.out.injEq] at h
        obtain ⟨hs', hb, hA, hR⟩ := h
        rw [hb] at hA hR
        simp at hA hR
        obtain ⟨_, _, _, _, _, hlam, _⟩ :=
          trial_accept_s env P eta eps maxCount H D trials s hb
        have h0 : rej - r = 0 := by omega
        have h1 : acc - a = 1 := by omega
        refine ⟨by omega, by omega, ?_⟩
        rw [← hs', hlam, h0, h1, pow_zero, pow_one, mul_one]
      · rw [if_neg hexit] at h
        have hexit2 := hexit
        simp only [Bool.or_eq_true, not_or, Bool.not_eq_true] at hexit2
        rw [hexit2.1] at h
        simp only [Bool.false_eq_true, if_false] at h
        obtain ⟨h1, h2, h3⟩ := ih (trial env P eta eps maxCount H D trials s).trials
          a (r + 1) (trial env P eta eps maxCount H D trials s).s s' acc rej h
        obtain ⟨_, _, _, _, _, hlam⟩ :=
          trial_reject_s env P eta eps maxCount H D trials s hexit2.1
        refine ⟨h1, by omega, ?_⟩
        rw [h3, hlam]
        have hrr : rej - r = (rej - (r + 1)) + 1 := by omega
        rw [hrr, pow_succ]
        ring

/-- The post-acceptance state of the C5 witness run. -/
def exS5' : LMState :=
  { x_best := [2], y_best := [2], e_best := 4, lambda := 1/2, derr := [12],
    updates := 1, converged := false }

theorem C5_lambda_witness :
    (1 : ℕ) = 0 + 1 ∧ (0 : ℕ) ≤ 0 ∧
    exS5'.lambda = exS5.lambda * 2 ^ (0 - 0 : ℕ) / 2 ^ (1 - 0 : ℕ) := by
  have h : innerLoop exEnv exP5 2 (1/1000) 5 [[1]] [4] 3 0 0 0 exS5
      = .out exS5' true 1 0 := by
    norm_num [innerLoop, trial, trialCore, lmDelta, matVec, augA, dot, applyUpdate,
      applyUpdateAux, rmsQ, normQ, zeroDiagIdx, diagOf, lastDropQuot, exEnv, exP5,
      exS5, exS5']
  exact C5_lambda exEnv exP5 2 (1/1000) 5 [[1]] [4] (by norm_num) 3 0 0 0
    exS5 exS5' 1 0 h

theorem mem_zeroDiagIdx (H : List (List ℚ)) (d : ℕ) :
    d ∈ zeroDiagIdx H ↔ d < (diagOf H 0).length ∧ (diagOf H 0).getD d 0 = 0 := by
  simp [zeroDiagIdx, List.mem_filter, List.mem_range]

/-- C7: if at some inner trial a diagonal entry of `H = JᵀJ` is zero or the
norm of the proposed step is non-finite, the inner loop aborts at that trial
with the warnings naming exactly the offending parameter indices; and whenever
the inner loop of an outer iteration aborts, the solve returns failure (never
success, so `SetSolution` is not reached). -/
theorem C7_illposed (env : NumEnv) (P : LSProblem) (eta eps : ℚ) (maxCount : ℕ) :
    (∀ (H : List (List ℚ)) (D : List ℚ) (fuel trials a r : ℕ) (s : LMState),
      ((∃ d, d < (diagOf H 0).length ∧ (diagOf H 0).getD d 0 = 0) ∨
        env.finite (normQ env (lmDelta env H D s.lambda)) = false) →
      innerLoop env P eta eps maxCount H D (fuel + 1) trials a r s
        = .abort (zeroDiagIdx H) ∧
      (∀ d, d ∈ zeroDiagIdx H ↔ d < (diagOf H 0).length ∧ (diagOf H 0).getD d 0 = 0)) ∧
    (∀ (fuel : ℕ) (s : LMState) (ws : List ℕ) (y : List ℚ) (J : List (List ℚ)) (lam : ℚ),
      s.converged = false →
      computeJacobianY P s.x_best s.y_best = y →
      computeJacobian P P.diffThreads s.x_best s.y_best = J →
      (if s.lambda < 0 then meanDiag (matH J) else s.lambda) = lam →
      innerLoop env P eta eps maxCount (matH J) (matD J y) (maxCount + 1) 0 0 0
        { s with y_best := y, lambda := lam } = .abort ws →
      outerLoop env P eta eps maxCount (fuel + 1) s = .failure ws ∧
      ∀ x u, outerLoop env P eta eps maxCount (fuel + 1) s ≠ .success x u) := by
  constructor
  · intro H D fuel trials a r s hcond
    have hill : (trial env P eta eps maxCount H D trials s).ill = true := by
      rw [trial_ill_def]
      rcases hcond with ⟨d, hd1, hd2⟩ | hfin
      · have hmem : d ∈ zeroDiagIdx H := (mem_zeroDiagIdx H d).mpr ⟨hd1, hd2⟩
        have hne : (zeroDiagIdx H).isEmpty = false := by
          cases hzd : zeroDiagIdx H with
          | nil => rw [hzd] at hmem; simp at hmem
          | cons x xs => rfl
        rw [hne]
        rfl
      · rw [hfin]
        simp
    refine ⟨?_, fun d => mem_zeroDiagIdx H d⟩
    simp only [innerLoop]
    rw [if_pos hill, trial_warnings_def]
  · intro fuel s ws y J lam hconv hy hJ hlam habort
    subst hy
    subst hJ
    subst hlam
    simp only [outerLoop]
    rw [if_neg (by simp [hconv]), habort]
    exact ⟨rfl, by simp⟩

/-- Concrete problem for the C7 witness: the residual is the constant `[1]`,
independent of the single parameter, so the Jacobian column and the diagonal
of `H` are zero. -/
def exP7 : LSProblem :=
  { vars := 1, conds := 1, varIdx := [0], jacobianPattern := none,
    diffStep := 1, diffThreads := 1, f := fun _ => [1] }

/-- Solver state for the C7 witness, with `y_best = f(x_best)` and
`e_best = rms(y_best)` under the identity square root. -/
def exS7 : LMState :=
  { x_best := [0], y_best := [1], e_best := 1, lambda := 1, derr := [],
    updates := 0, converged := false }

theorem C7_illposed_witness :
    innerLoop exEnv exP7 2 (1/1000) 1 [[0]] [0] 1 0 0 0 exS7
      = .abort (zeroDiagIdx [[0]]) ∧
    (0 ∈ zeroDiagIdx [[(0 : ℚ)]]) ∧
    outerLoop exEnv exP7 2 (1/1000) 1 1 exS7 = .failure [0] := by
  have hp := C7_illposed exEnv exP7 2 (1/1000) 1
  have ha := hp.1 [[0]] [0] 0 0 0 0 exS7
    (Or.inl ⟨0, by norm_num [diagOf], by norm_num [diagOf]⟩)
  refine ⟨ha.1, (ha.2 0).mpr ⟨by norm_num [diagOf], by norm_num [diagOf]⟩, ?_⟩
  have hb := hp.2 0 exS7 [0] [1] [[0]] 1 rfl
    (by norm_num [computeJacobianY, exP7, exS7])
    (by norm_num [computeJacobian, computeJacobianY, mkSlices, mkSlice, threadSlices,
      diffThread, diffThreadStep, perturb, maskColumn, exP7, exS7,
      show List.range 1 = [0] from rfl])
    (by norm_num [exS7])
    (by norm_num [innerLoop, trial, trialCore, matH, matD, dot, lmDelta, matVec, augA,
      applyUpdate, applyUpdateAux, rmsQ, normQ, zeroDiagIdx, diagOf, lastDropQuot,
      exEnv, exP7, exS7, show List.range 1 = [0] from rfl])
  exact hb.1

theorem dot_nil_right (r : List ℚ) : dot r [] = 0 := by
  simp [dot]

theorem dot_map_dotnil (M : List (List ℚ)) :
    dot (M.map fun r => dot r ([] : List ℚ)) (M.map fun r => dot r ([] : List ℚ)) = 0 := by
  induction M with
  | nil => simp [dot]
  | cons r M ih => simp [dot, dot_nil_right] at ih ⊢

theorem lmDelta_empty (env : NumEnv) (lam : ℚ) :
    lmDelta env [] [] lam = (env.matInv []).map (fun r => dot r []) := rfl

theorem normQ_lmDelta_empty (env : NumEnv) (lam : ℚ) :
    normQ env (lmDelta env [] [] lam) = env.sqrt 0 := by
  rw [normQ, lmDelta_empty, dot_map_dotnil]

theorem applyUpdate_empty (P : LSProblem) (hA : P.varIdx = []) (x delta : List ℚ) :
    applyUpdate P x delta = x := by
  rw [applyUpdate, hA]
  rfl

theorem trial_empty_better (env : NumEnv) (P : LSProblem) (eta eps : ℚ) (maxCount : ℕ)
    (trials : ℕ) (s : LMState) (hA : P.varIdx = [])
    (hy : s.y_best = P.f s.x_best) (he : s.e_best = rmsQ env s.y_best) :
    (trial env P eta eps maxCount ([] : List (List ℚ)) ([] : List ℚ) trials s).better
      = false := by
  rw [trial_better_def, applyUpdate_empty P hA, ← hy]
  have hde : ¬ 0 < s.e_best - rmsQ env s.y_best := by rw [he]; simp
  simp [trialCore, hde]

theorem trial_empty_ill (env : NumEnv) (P : LSProblem) (eta eps : ℚ) (maxCount : ℕ)
    (trials : ℕ) (s : LMState) (hfin : env.finite (env.sqrt 0) = true) :
    (trial env P eta eps maxCount ([] : List (List ℚ)) ([] : List ℚ) trials s).ill
      = false := by
  rw [trial_ill_def, normQ_lmDelta_empty, hfin]
  rfl

theorem trial_empty_converged (env : NumEnv) (P : LSProblem) (eta eps : ℚ) (maxCount : ℕ)
    (trials : ℕ) (s : LMState) (hA : P.varIdx = [])
    (hy : s.y_best = P.f s.x_best) (he : s.e_best = rmsQ env s.y_best) :
    (trial env P eta eps maxCount ([] : List (List ℚ)) ([] : List ℚ) trials s).s.converged
      = (s.converged || decide (maxCount ≤ s.updates)
        || (decide (1 < s.updates) && decide (lastDropQuot s.derr < eps))
        || (decide (1 < s.updates)
            && decide (normQ env (lmDelta env [] [] s.lambda) / normQ env s.x_best < eps))
        || (decide (s.lambda * eta = 0) || decide (maxCount ≤ trials + 1))) := by
  rw [trial_s_converged_def, applyUpdate_empty P hA, ← hy]
  have hde : ¬ 0 < s.e_best - rmsQ env s.y_best := by rw [he]; simp
  have h21 : (trialCore env eta s s.x_best s.y_best).2.1 = false := by
    simp [trialCore, hde]
  rw [trialCore_fst_reject env eta s s.x_best s.y_best hde, h21]
  rfl

theorem innerLoop_empty (env : NumEnv) (P : LSProblem) (eta eps : ℚ) (maxCount : ℕ)
    (hA : P.varIdx = []) (hfin : env.finite (env.sqrt 0) = true) :
    ∀ (fuel trials a r : ℕ) (s : LMState), s.converged = false →
      s.y_best = P.f s.x_best → s.e_best = rmsQ env s.y_best →
      maxCount ≤ fuel + trials → 1 ≤ fuel →
      ∃ s' rej, innerLoop env P eta eps maxCount [] [] fuel trials a r s
          = .out s' false a rej ∧
        s'.x_best = s.x_best ∧ s'.y_best = s.y_best ∧ s'.e_best = s.e_best ∧
        s'.updates = s.updates ∧ s'.derr = s.derr ∧ s'.converged = true := by
  intro fuel
  induction fuel with
  | zero =>
    intro trials a r s _ _ _ _ h1
    exact absurd h1 (by omega)
  | succ fuel ih =>
    intro trials a r s hconv hy he hfuel _
    have hb := trial_empty_better env P eta eps maxCount trials s hA hy he
    have hill := trial_empty_ill env P eta eps maxCount trials s hfin
    have hcvd := trial_empty_converged env P eta eps maxCount trials s hA hy he
    obtain ⟨hx2, hy2, he2, hd2, hu2, hl2⟩ :=
      trial_reject_s env P eta eps maxCount [] [] trials s hb
    by_cases hcc : (trial env P eta eps maxCount ([] : List (List ℚ)) [] trials s).s.converged
        = true
    · refine ⟨(trial env P eta eps maxCount [] [] trials s).s, r + 1, ?_,
        hx2, hy2, he2, hu2, hd2, hcc⟩
      simp only [innerLoop]
      rw [if_neg (by rw [hill]; simp), if_pos (by rw [hb, hcc]; rfl), hb]
      simp
    · simp only [Bool.not_eq_true] at hcc
      have hmc : ¬ maxCount ≤ trials + 1 := by
        intro hle
        have : (trial env P eta eps maxCount ([] : List (List ℚ)) [] trials s).s.converged
            = true := by
          rw [hcvd]
          simp [hle]
        rw [this] at hcc
        exact absurd hcc (by simp)
      have hrec := ih (trials + 1) a (r + 1)
        (trial env P eta eps maxCount [] [] trials s).s
        hcc (by rw [hy2, hx2]; exact hy) (by rw [he2, hy2]; exact he)
        (by omega) (by omega)
      obtain ⟨s', rej, hloop, f1, f2, f3, f4, f5, f6⟩ := hrec
      refine ⟨s', rej, ?_, by rw [f1, hx2], by rw [f2, hy2], by rw [f3, he2],
        by rw [f4, hu2], by rw [f5, hd2], f6⟩
      simp only [innerLoop]
      rw [if_neg (by rw [hill]; simp), if_neg (by rw [hb, hcc]; simp), hb]
      simp only [Bool.false_eq_true, if_false]
      rw [trial_trials_def]
      exact hloop

theorem foldl_diffThread_keep (P : LSProblem) (T : ℕ) :
    ∀ (ts : List ℕ) (J : List (List ℚ)),
      ts.foldl (fun J t => diffThread P J (threadSlices [] T t)) J = J := by
  intro ts
  induction ts with
  | nil => intro J; rfl
  | cons t ts ih =>
    intro J
    rw [List.foldl_cons]
    exact ih J

theorem computeJacobian_empty (P : LSProblem) (T : ℕ) (x yIn : List ℚ)
    (hA : P.varIdx = []) : computeJacobian P T x yIn = [] := by
  simp only [computeJacobian]
  rw [hA]
  exact foldl_diffThread_keep P T (List.range T) _

/-- C3: with an empty active set the solve returns true with the initial
vector installed as the solution and zero accepted updates: the Jacobian is
the `m × 0` matrix, every inner trial proposes `x_try = x_best` and is
rejected, the trial cap forces convergence, and the outer loop exits after
one iteration. -/
theorem C3_empty_active (env : NumEnv) (P : LSProblem) (eta eps : ℚ) (maxCount : ℕ)
    (lambda0 : ℚ) (fuel : ℕ) (x0 : List ℚ)
    (hA : P.varIdx = []) (hfin : env.finite (env.sqrt 0) = true) (hfuel : 2 ≤ fuel) :
    solve env P eta eps maxCount lambda0 fuel x0 = .success x0 0 := by
  obtain ⟨f, rfl⟩ : ∃ f, fuel = f + 2 := ⟨fuel - 2, by omega⟩
  simp only [solve]
  have h2 : f + 2 = f + 1 + 1 := rfl
  rw [h2]
  simp only [outerLoop]
  rw [if_neg (by simp)]
  rw [computeJacobian_empty P P.diffThreads x0 (P.f x0) hA]
  have hY : computeJacobianY P x0 (P.f x0) = P.f x0 := by
    rw [computeJacobianY]
    exact ite_self _
  rw [hY]
  have hrec := innerLoop_empty env P eta eps maxCount hA hfin (maxCount + 1) 0 0 0
    { x_best := x0, y_best := P.f x0, e_best := rmsQ env (P.f x0),
      lambda := (if lambda0 < 0 then meanDiag [] else lambda0), derr := [],
      updates := 0, converged := false }
    rfl rfl rfl (by omega) (by omega)
  obtain ⟨s', rej, hloop, f1, f2, f3, f4, f5, f6⟩ := hrec
  rw [show matH ([] : List (List ℚ)) = [] from rfl,
    show matD ([] : List (List ℚ)) (P.f x0) = [] from rfl]
  rw [hloop]
  simp [f6, f1, f4]

/-- Concrete problem for the C3 witness: empty active set. -/
def exP3 : LSProblem :=
  { vars := 1, conds := 1, varIdx := [], jacobianPattern := none,
    diffStep := 1, diffThreads := 1, f := fun x => x }

theorem C3_empty_active_witness :
    solve exEnv exP3 2 (1/1000) 5 1 2 [3] = .success [3] 0 :=
  C3_empty_active exEnv exP3 2 (1/1000) 5 1 2 [3] rfl rfl (by decide)
